import Mathlib

/-!
# Verification of `dispatch/dispatcher.py` (Signal registry and dispatch engine)

Shallow embedding of the receiver registry and dispatch engine of the
`dispatch` library.  Python objects are modelled by `Target` (an object
together with the attributes `_make_id` inspects), Python `id()` values by
`Ident`, registry entries by `(Key, Handle)` pairs, and receiver invocation
by an explicit call environment `call : Target → CallRes α` (a receiver
either returns a value or raises an error; both values and error objects
live in the same Python-object universe `α`).  Weak-reference resolution is
modelled by an aliveness environment `alive : Target → Bool`: a weak handle
resolves to its target exactly when the target is still alive.
-/

set_option autoImplicit false
set_option linter.unusedVariables false

universe u

/-- A Python `id()` value as used by `_make_id`: either a plain object id
(`id(target)`) or, for a bound method, the pair
`(id(target.im_self), id(target.im_func))`.  A pair never equals a plain id
(in Python a tuple never compares equal to an int). -/
inductive Ident where
  | single : Nat → Ident
  | pair : Nat → Nat → Ident
deriving DecidableEq

/-- A Python object as far as the dispatcher inspects it: `none` is the
`None` object, `plain n` an ordinary object (callable, sender, ...) with
object id `n`, and `method s f o` a bound-method object whose bound instance
has id `s`, whose underlying function has id `f`, and whose own (ephemeral)
object id is `o` — each attribute access creates a fresh bound-method
object, so `o` differs between accesses to the same instance/method pair. -/
inductive Target where
  | none : Target
  | plain : Nat → Target
  | method : Nat → Nat → Nat → Target
deriving DecidableEq

/-- `_make_id(target)`: the pair `(id(im_self), id(im_func))` for a bound
method, `id(target)` otherwise.  `id(None)` is modelled as `0`; since
distinct live Python objects have distinct ids, plain objects are given the
ids `n + 1`, never colliding with `id(None)`. -/
def _make_id : Target → Ident
  | Target.none => Ident.single 0
  | Target.plain n => Ident.single (n + 1)
  | Target.method s f _ => Ident.pair s f

/-- The first component of a registration key: either `_make_id(receiver)`
or a caller-supplied `dispatch_uid` (usually a string, which in Python never
compares equal to an int or a tuple of ints, hence a separate constructor). -/
inductive UidPart where
  | fromId : Ident → UidPart
  | custom : Nat → UidPart
deriving DecidableEq

/-- A registration key `lookup_key`: `(dispatch_uid, _make_id(sender))` or
`(_make_id(receiver), _make_id(sender))`. -/
abbrev Key := UidPart × Ident

/-- A stored receiver handle: the raw receiver when `weak=False`, or the
`saferef.safeRef` weak reference to it when `weak=True`.  Two weak handles
to the same target compare equal (`safeRef` caches and `BoundMethodWeakref`
compares by key). -/
inductive Handle where
  | strong : Target → Handle
  | weak : Target → Handle
deriving DecidableEq

/-- The receiver a handle holds (before any liveness check). -/
def Handle.target : Handle → Target
  | Handle.strong t => t
  | Handle.weak t => t

/-- One entry of `Signal.receivers`. -/
abbrev Entry := Key × Handle

/-- The mutable state of a `Signal`: the ordered registry `receivers` and
the advisory `providing_args` set (stored but never consulted by
`send`/`send_robust`).  The `threading.Lock` has no pure content; its
acquire/release discipline is modelled separately by event traces below. -/
structure Signal where
  receivers : List Entry
  providing_args : List Nat
deriving DecidableEq

/-- `Signal.__init__`: empty registry. -/
def newSignal (providing_args : List Nat) : Signal :=
  { receivers := [], providing_args := providing_args }

/-- The `lookup_key` computed at the top of `connect` and `disconnect`:
`(dispatch_uid, _make_id(sender))` when a (truthy) `dispatch_uid` is given,
`(_make_id(receiver), _make_id(sender))` otherwise. -/
def lookupKey (receiver : Target) (sender : Target) (dispatch_uid : Option Nat) : Key :=
  match dispatch_uid with
  | some u => (UidPart.custom u, _make_id sender)
  | none => (UidPart.fromId (_make_id receiver), _make_id sender)

/-- The keys of a registry, in order. -/
def keysOf (recs : List Entry) : List Key :=
  recs.map Prod.fst

/-- `Signal.connect(receiver, sender, weak, dispatch_uid)`: compute
`lookup_key`, wrap the receiver in a weak reference when `weak`, then under
the lock scan the registry for an entry with an equal key — the
`for ... break / else: append` loop appends `(lookup_key, receiver)` at the
end exactly when no existing entry has an equal key. -/
def Signal.connect (sig : Signal) (receiver : Target) (sender : Target)
    (weak : Bool) (dispatch_uid : Option Nat) : Signal :=
  let lookup_key := lookupKey receiver sender dispatch_uid
  let handle := if weak then Handle.weak receiver else Handle.strong receiver
  if sig.receivers.any (fun e => e.1 = lookup_key) then sig
  else { sig with receivers := sig.receivers ++ [(lookup_key, handle)] }

/-- The deletion loop of `disconnect`: walk the registry in order and delete
the first entry whose key equals `k` (`del self.receivers[index]; break`). -/
def removeFirstKey (k : Key) : List Entry → List Entry
  | [] => []
  | e :: rest => if e.1 = k then rest else e :: removeFirstKey k rest

/-- `Signal.disconnect(receiver, sender, weak, dispatch_uid)`: compute the
same `lookup_key` as `connect` and, under the lock, delete the first entry
with that key; no error when none matches.  The `weak` argument is accepted
but never used. -/
def Signal.disconnect (sig : Signal) (receiver : Target) (sender : Target)
    (weak : Bool) (dispatch_uid : Option Nat) : Signal :=
  { sig with receivers := removeFirstKey (lookupKey receiver sender dispatch_uid) sig.receivers }

/-- The loop body of `Signal._live_receivers(senderkey)`: keep an entry when
its stored sender id equals `_make_id(None)` or `senderkey`; dereference
weak handles, dropping those whose target is dead (`receiver() is None`);
keep strong handles as-is.  Order follows registry order. -/
def liveReceiversList (alive : Target → Bool) (senderkey : Ident) : List Entry → List Target
  | [] => []
  | ((_, r_senderkey), receiver) :: rest =>
    if r_senderkey = _make_id Target.none ∨ r_senderkey = senderkey then
      match receiver with
      | Handle.weak t =>
        if alive t then t :: liveReceiversList alive senderkey rest
        else liveReceiversList alive senderkey rest
      | Handle.strong t => t :: liveReceiversList alive senderkey rest
    else liveReceiversList alive senderkey rest

/-- `Signal._live_receivers(senderkey)` on a signal's registry. -/
def Signal.liveReceivers (sig : Signal) (alive : Target → Bool) (senderkey : Ident) :
    List Target :=
  liveReceiversList alive senderkey sig.receivers

/-- The outcome of invoking one receiver: a normal return carrying a value,
or a raised error carrying the error object.  Values and error objects
share the Python-object universe `α`. -/
inductive CallRes (α : Type u) where
  | ok : α → CallRes α
  | err : α → CallRes α
deriving DecidableEq

/-- The object a `send_robust` iteration stores for a receiver: its return
value on success, the captured error object itself on failure. -/
def CallRes.val {α : Type u} : CallRes α → α
  | CallRes.ok v => v
  | CallRes.err e => e

/-- The `send` dispatch loop over the live-receiver list, instrumented with
the list of receivers actually invoked: each receiver is called in order;
its response is appended on success; the first raised error aborts the loop
and propagates (`Except.error`), so later receivers are never invoked. -/
def sendLoop {α : Type u} (call : Target → CallRes α) :
    List Target → List Target × Except α (List (Target × α))
  | [] => ([], Except.ok [])
  | r :: rest =>
    match call r with
    | CallRes.err e => ([r], Except.error e)
    | CallRes.ok v =>
      let p := sendLoop call rest
      (r :: p.1, p.2.map (fun l => (r, v) :: l))

/-- `Signal.send(sender, **named)`: return `[]` at once when the registry is
empty; otherwise run the dispatch loop over
`_live_receivers(_make_id(sender))`.  A receiver's error propagates to the
caller (`Except.error`); otherwise the ordered `(receiver, response)` list
is returned. -/
def Signal.send {α : Type u} (sig : Signal) (alive : Target → Bool)
    (call : Target → CallRes α) (sender : Target) : Except α (List (Target × α)) :=
  if sig.receivers.isEmpty then Except.ok []
  else (sendLoop call (sig.liveReceivers alive (_make_id sender))).2

/-- The receivers `Signal.send` actually invokes, in order (the
instrumentation component of `sendLoop`). -/
def Signal.sendInvoked {α : Type u} (sig : Signal) (alive : Target → Bool)
    (call : Target → CallRes α) (sender : Target) : List Target :=
  if sig.receivers.isEmpty then []
  else (sendLoop call (sig.liveReceivers alive (_make_id sender))).1

/-- The `send_robust` dispatch loop, instrumented with the receivers
invoked: every receiver is called in order; `try/except Exception` stores
`(receiver, err)` on failure and `(receiver, response)` on success, and the
loop always continues. -/
def robustLoop {α : Type u} (call : Target → CallRes α) :
    List Target → List Target × List (Target × α)
  | [] => ([], [])
  | r :: rest =>
    let p := robustLoop call rest
    match call r with
    | CallRes.err e => (r :: p.1, (r, e) :: p.2)
    | CallRes.ok v => (r :: p.1, (r, v) :: p.2)

/-- `Signal.send_robust(sender, **named)`: return `[]` at once when the
registry is empty; otherwise run the robust loop over
`_live_receivers(_make_id(sender))`.  Never raises. -/
def Signal.sendRobust {α : Type u} (sig : Signal) (alive : Target → Bool)
    (call : Target → CallRes α) (sender : Target) : List (Target × α) :=
  if sig.receivers.isEmpty then []
  else (robustLoop call (sig.liveReceivers alive (_make_id sender))).2

/-- The receivers `Signal.send_robust` actually invokes, in order. -/
def Signal.robustInvoked {α : Type u} (sig : Signal) (alive : Target → Bool)
    (call : Target → CallRes α) (sender : Target) : List Target :=
  if sig.receivers.isEmpty then []
  else (robustLoop call (sig.liveReceivers alive (_make_id sender))).1

/-- The first loop of `Signal._remove_receiver(receiver)`: collect, in
order, the keys of all entries whose stored handle equals the dead
handle. -/
def deadKeys (receiver : Handle) : List Entry → List Key
  | [] => []
  | (k, h) :: rest =>
    if h = receiver then k :: deadKeys receiver rest else deadKeys receiver rest

/-- The inner deletion loop of `_remove_receiver`: enumerate the registry in
reverse, deleting every entry whose key equals `key` (deleting at
`last_idx - idx` while iterating `reversed(self.receivers)` visits each
element once and removes all matches). -/
def removeAllKey (key : Key) : List Entry → List Entry
  | [] => []
  | e :: rest =>
    if e.1 = key then removeAllKey key rest else e :: removeAllKey key rest

/-- `Signal._remove_receiver(receiver)` (the `onDelete` callback of
`safeRef`): under the lock, collect the keys of all entries holding the
dead handle, then delete every entry bearing each collected key. -/
def Signal.removeReceiver (sig : Signal) (receiver : Handle) : Signal :=
  let to_remove := deadKeys receiver sig.receivers
  { sig with receivers := to_remove.foldl (fun recs k => removeAllKey k recs) sig.receivers }

/-!
## Lock discipline

The `threading.Lock` discipline of each method is modelled as the ordered
trace of lock and registry events the method's body performs.  `connect`,
`disconnect` and `_remove_receiver` wrap their registry access in
`self.lock.acquire()` / `self.lock.release()`; `send`, `send_robust` and
`_live_receivers` access `self.receivers` directly, with no lock call
anywhere in their bodies.
-/

/-- An observable lock/registry event of one method body. -/
inductive LockEvent where
  | acquire : LockEvent
  | release : LockEvent
  | registryRead : LockEvent
  | registryWrite : LockEvent
  | invoke : Target → LockEvent
deriving DecidableEq

/-- The guard is held just before step `i` of a trace: strictly more
acquires than releases have occurred among the first `i` events. -/
def heldAt (tr : List LockEvent) (i : Nat) : Prop :=
  (tr.take i).count LockEvent.release < (tr.take i).count LockEvent.acquire

/-- Every registry access in the trace happens while the guard is held. -/
def guardedTrace (tr : List LockEvent) : Prop :=
  ∀ i : Fin tr.length,
    (tr.get i = LockEvent.registryRead ∨ tr.get i = LockEvent.registryWrite) →
    heldAt tr i.val

/-- Event trace of `Signal.connect`: acquire, scan the registry, append
unless a duplicate key was found, release. -/
def connectTrace (sig : Signal) (receiver : Target) (sender : Target)
    (dispatch_uid : Option Nat) : List LockEvent :=
  [LockEvent.acquire, LockEvent.registryRead]
    ++ (if sig.receivers.any (fun e => e.1 = lookupKey receiver sender dispatch_uid)
        then [] else [LockEvent.registryWrite])
    ++ [LockEvent.release]

/-- Event trace of `Signal.disconnect`: acquire, scan, delete when a key
matches, release. -/
def disconnectTrace (sig : Signal) (receiver : Target) (sender : Target)
    (dispatch_uid : Option Nat) : List LockEvent :=
  [LockEvent.acquire, LockEvent.registryRead]
    ++ (if lookupKey receiver sender dispatch_uid ∈ keysOf sig.receivers
        then [LockEvent.registryWrite] else [])
    ++ [LockEvent.release]

/-- Event trace of `Signal._remove_receiver`: acquire, scan for dead
handles, delete their entries, release. -/
def removeReceiverTrace (sig : Signal) (receiver : Handle) : List LockEvent :=
  [LockEvent.acquire, LockEvent.registryRead]
    ++ (if deadKeys receiver sig.receivers = [] then [] else [LockEvent.registryWrite])
    ++ [LockEvent.release]

/-- Event trace of `Signal.send`: the unlocked emptiness test reads the
registry; when non-empty, `_live_receivers` reads the registry (again with
no lock call), and then the live receivers are invoked in order.  No
`acquire` or `release` occurs anywhere. -/
def sendTrace {α : Type u} (sig : Signal) (alive : Target → Bool)
    (call : Target → CallRes α) (sender : Target) : List LockEvent :=
  LockEvent.registryRead ::
    (if sig.receivers.isEmpty then []
     else LockEvent.registryRead ::
       (sig.sendInvoked alive call sender).map LockEvent.invoke)

/-- Event trace of `Signal.send_robust`, analogous to `sendTrace`. -/
def sendRobustTrace {α : Type u} (sig : Signal) (alive : Target → Bool)
    (call : Target → CallRes α) (sender : Target) : List LockEvent :=
  LockEvent.registryRead ::
    (if sig.receivers.isEmpty then []
     else LockEvent.registryRead ::
       (sig.robustInvoked alive call sender).map LockEvent.invoke)

/-- Arguments of one `connect` call, for reasoning about call sequences. -/
structure ConnectCall where
  receiver : Target
  sender : Target
  weak : Bool
  dispatch_uid : Option Nat
deriving DecidableEq

/-- Apply one `connect` call to a signal. -/
def applyConnect (sig : Signal) (c : ConnectCall) : Signal :=
  sig.connect c.receiver c.sender c.weak c.dispatch_uid

/-- The contribution of a single registry entry to the live-receiver list:
`some` receiver when the entry's sender id matches (the `None` sentinel or
the publishing sender) and its handle resolves, `none` otherwise.  The
live-receiver computation is exactly `filterMap` of this function. -/
def liveResolve (alive : Target → Bool) (senderkey : Ident) (e : Entry) : Option Target :=
  if e.1.2 = _make_id Target.none ∨ e.1.2 = senderkey then
    match e.2 with
    | Handle.weak t => if alive t then some t else none
    | Handle.strong t => some t
  else none

/-!
## Helper lemmas
-/

theorem keysOf_cons (e : Entry) (rest : List Entry) :
    keysOf (e :: rest) = e.1 :: keysOf rest := rfl

theorem any_key_eq_true (recs : List Entry) (k : Key) :
    (recs.any (fun e => e.1 = k)) = true ↔ k ∈ keysOf recs := by
  simp only [List.any_eq_true, decide_eq_true_eq, keysOf, List.mem_map]

theorem connect_of_mem (sig : Signal) (receiver sender : Target) (weak : Bool)
    (uid : Option Nat) (h : lookupKey receiver sender uid ∈ keysOf sig.receivers) :
    sig.connect receiver sender weak uid = sig := by
  unfold Signal.connect
  rw [if_pos ((any_key_eq_true _ _).2 h)]

theorem connect_of_not_mem (sig : Signal) (receiver sender : Target) (weak : Bool)
    (uid : Option Nat) (h : lookupKey receiver sender uid ∉ keysOf sig.receivers) :
    (sig.connect receiver sender weak uid).receivers
      = sig.receivers
        ++ [(lookupKey receiver sender uid,
             if weak then Handle.weak receiver else Handle.strong receiver)] := by
  unfold Signal.connect
  rw [if_neg (fun hc => h ((any_key_eq_true _ _).1 hc))]

theorem keysOf_append (l₁ l₂ : List Entry) :
    keysOf (l₁ ++ l₂) = keysOf l₁ ++ keysOf l₂ := by
  simp [keysOf]

theorem connect_nodup (sig : Signal) (receiver sender : Target) (weak : Bool)
    (uid : Option Nat) (h : (keysOf sig.receivers).Nodup) :
    (keysOf (sig.connect receiver sender weak uid).receivers).Nodup := by
  by_cases hm : lookupKey receiver sender uid ∈ keysOf sig.receivers
  · rw [connect_of_mem sig receiver sender weak uid hm]; exact h
  · rw [connect_of_not_mem sig receiver sender weak uid hm, keysOf_append]
    refine List.Nodup.append h (List.nodup_singleton _) ?_
    intro k hk hk2
    have hke : k = lookupKey receiver sender uid := by
      simpa [keysOf] using hk2
    exact hm (hke ▸ hk)

theorem liveReceiversList_eq_filterMap (alive : Target → Bool) (senderkey : Ident)
    (recs : List Entry) :
    liveReceiversList alive senderkey recs = recs.filterMap (liveResolve alive senderkey) := by
  induction recs with
  | nil => rfl
  | cons e rest ih =>
    obtain ⟨⟨u, sk⟩, h⟩ := e
    by_cases hs : sk = _make_id Target.none ∨ sk = senderkey
    · cases h with
      | strong t =>
        simp [liveReceiversList, liveResolve, hs, ih]
      | weak t =>
        by_cases ha : alive t
        · simp [liveReceiversList, liveResolve, hs, ha, ih]
        · simp [liveReceiversList, liveResolve, hs, ha, ih]
    · simp [liveReceiversList, liveResolve, hs, ih]

theorem sendLoop_invoked_mem {α : Type u} (call : Target → CallRes α) (l : List Target)
    (r : Target) (h : r ∈ (sendLoop call l).1) : r ∈ l := by
  induction l with
  | nil => simp [sendLoop] at h
  | cons x rest ih =>
    rcases hc : call x with v | e <;> simp [sendLoop, hc] at h
    · rcases h with h | h
      · exact h ▸ List.mem_cons_self x rest
      · exact List.mem_cons_of_mem x (ih h)
    · exact h ▸ List.mem_cons_self x rest

theorem robustLoop_spec {α : Type u} (call : Target → CallRes α) (l : List Target) :
    robustLoop call l = (l, l.map (fun r => (r, (call r).val))) := by
  induction l with
  | nil => rfl
  | cons x rest ih =>
    rcases hc : call x with v | e <;> simp [robustLoop, hc, ih, CallRes.val]

theorem sendLoop_all_ok {α : Type u} (call : Target → CallRes α) (l : List Target)
    (h : ∀ r ∈ l, ∀ e, call r ≠ CallRes.err e) :
    sendLoop call l = (l, Except.ok (l.map (fun r => (r, (call r).val)))) := by
  induction l with
  | nil => rfl
  | cons x rest ih =>
    rcases hc : call x with v | e
    · simp [sendLoop, hc, ih (fun r hr => h r (List.mem_cons_of_mem x hr)), CallRes.val,
        Except.map]
    · exact absurd hc (h x (List.mem_cons_self x rest) e)

theorem sendLoop_err {α : Type u} (call : Target → CallRes α) (pre post : List Target)
    (bad : Target) (e : α)
    (hpre : ∀ r ∈ pre, ∀ e', call r ≠ CallRes.err e')
    (hbad : call bad = CallRes.err e) :
    sendLoop call (pre ++ bad :: post) = (pre ++ [bad], Except.error e) := by
  induction pre with
  | nil => simp [sendLoop, hbad]
  | cons x rest ih =>
    rcases hc : call x with v | e'
    · simp [sendLoop, hc, ih (fun r hr => hpre r (List.mem_cons_of_mem x hr)), Except.map]
    · exact absurd hc (hpre x (List.mem_cons_self x rest) e')

theorem removeFirstKey_of_not_mem (k : Key) (recs : List Entry)
    (h : k ∉ keysOf recs) : removeFirstKey k recs = recs := by
  induction recs with
  | nil => rfl
  | cons e rest ih =>
    rw [keysOf_cons] at h
    simp only [List.mem_cons, not_or] at h
    have hne : ¬ e.1 = k := fun he => h.1 he.symm
    simp only [removeFirstKey, if_neg hne, ih h.2]

theorem removeFirstKey_middle (k : Key) (pre post : List Entry) (h : Handle)
    (hpre : k ∉ keysOf pre) :
    removeFirstKey k (pre ++ (k, h) :: post) = pre ++ post := by
  induction pre with
  | nil => simp [removeFirstKey]
  | cons e rest ih =>
    rw [keysOf_cons] at hpre
    simp only [List.mem_cons, not_or] at hpre
    have hne : ¬ e.1 = k := fun he => hpre.1 he.symm
    simp only [List.cons_append, removeFirstKey, if_neg hne, List.append_eq, ih hpre.2]

theorem removeAllKey_eq_filter (k : Key) (recs : List Entry) :
    removeAllKey k recs = recs.filter (fun e => !(e.1 = k : Bool)) := by
  induction recs with
  | nil => rfl
  | cons e rest ih =>
    by_cases he : e.1 = k <;> simp [removeAllKey, he, ih, List.filter]

theorem foldl_removeAllKey (ks : List Key) (recs : List Entry) :
    ks.foldl (fun rs k => removeAllKey k rs) recs
      = recs.filter (fun e => (e.1 ∉ ks : Bool)) := by
  induction ks generalizing recs with
  | nil => simp
  | cons k rest ih =>
    rw [List.foldl_cons, ih, removeAllKey_eq_filter, List.filter_filter]
    apply List.filter_congr
    intro e _
    by_cases h1 : e.1 = k <;> by_cases h2 : e.1 ∈ rest <;> simp [h1, h2]

theorem deadKeys_mem (receiver : Handle) (recs : List Entry) (k : Key) :
    k ∈ deadKeys receiver recs ↔ ∃ e ∈ recs, e.1 = k ∧ e.2 = receiver := by
  induction recs with
  | nil => simp [deadKeys]
  | cons e rest ih =>
    obtain ⟨ek, eh⟩ := e
    by_cases hh : eh = receiver
    · subst hh
      simp only [deadKeys, if_pos rfl, List.mem_cons, ih]
      aesop
    · simp only [deadKeys, if_neg hh, List.mem_cons, ih]
      aesop

theorem liveReceivers_def (sig : Signal) (alive : Target → Bool) (sk : Ident) :
    sig.liveReceivers alive sk = liveReceiversList alive sk sig.receivers := rfl

theorem send_eq_loop {α : Type u} (sig : Signal) (alive : Target → Bool)
    (call : Target → CallRes α) (sender : Target) (h : sig.receivers ≠ []) :
    sig.send alive call sender
      = (sendLoop call (sig.liveReceivers alive (_make_id sender))).2 := by
  unfold Signal.send
  rw [if_neg (fun hc => h (List.isEmpty_iff.1 hc))]

theorem sendInvoked_eq_loop {α : Type u} (sig : Signal) (alive : Target → Bool)
    (call : Target → CallRes α) (sender : Target) (h : sig.receivers ≠ []) :
    sig.sendInvoked alive call sender
      = (sendLoop call (sig.liveReceivers alive (_make_id sender))).1 := by
  unfold Signal.sendInvoked
  rw [if_neg (fun hc => h (List.isEmpty_iff.1 hc))]

theorem receivers_ne_nil_of_live (sig : Signal) (alive : Target → Bool)
    (sk : Ident) (h : sig.liveReceivers alive sk ≠ []) : sig.receivers ≠ [] := by
  intro h0
  refine h ?_
  rw [liveReceivers_def, h0]
  rfl

theorem foldl_connect_nodup (calls : List ConnectCall) (sig : Signal)
    (h : (keysOf sig.receivers).Nodup) :
    (keysOf ((calls.foldl applyConnect sig).receivers)).Nodup := by
  induction calls generalizing sig with
  | nil => exact h
  | cons c rest ih =>
    exact ih _ (connect_nodup sig c.receiver c.sender c.weak c.dispatch_uid h)

/-!
## Claim theorems
-/

/-- **C1** For every `Signal`, `connect` is idempotent per `RegistrationKey`:
after any sequence of `connect` calls starting from a fresh signal, the
`receivers` registry never contains two entries with equal key, and a
`connect` whose computed `lookup_key` equals an existing entry's key leaves
the signal completely unchanged — the first registration's handle is kept
and the new one is silently dropped. -/
theorem connect_idempotent_per_key :
    (∀ (calls : List ConnectCall) (pa : List Nat),
      (keysOf ((calls.foldl applyConnect (newSignal pa)).receivers)).Nodup)
    ∧ (∀ (sig : Signal) (c : ConnectCall),
        lookupKey c.receiver c.sender c.dispatch_uid ∈ keysOf sig.receivers →
        applyConnect sig c = sig) := by
  constructor
  · intro calls pa
    exact foldl_connect_nodup calls (newSignal pa) (by simp [newSignal, keysOf])
  · intro sig c h
    exact connect_of_mem sig c.receiver c.sender c.weak c.dispatch_uid h

/-- Witness for C1: connecting the same plain receiver twice (even with a
different `weak` flag the second time) leaves the one-entry registry of the
first connect unchanged. -/
theorem connect_idempotent_per_key_witness :
    applyConnect
        (applyConnect (newSignal []) ⟨Target.plain 0, Target.none, true, Option.none⟩)
        ⟨Target.plain 0, Target.none, false, Option.none⟩
      = applyConnect (newSignal []) ⟨Target.plain 0, Target.none, true, Option.none⟩ :=
  connect_idempotent_per_key.2
    (applyConnect (newSignal []) ⟨Target.plain 0, Target.none, true, Option.none⟩)
    ⟨Target.plain 0, Target.none, false, Option.none⟩ (by decide)

/-- **C2** `send` is fail-fast: if the live-receiver list splits as
`pre ++ bad :: post` where every receiver of `pre` returns normally and
`bad` raises `e`, then `send` propagates exactly `e` to its caller and the
receivers actually invoked are exactly `pre ++ [bad]` — nothing after the
failing receiver runs.  If no live receiver raises, `send` returns the full
ordered `(receiver, returnValue)` list. -/
theorem send_fail_fast {α : Type u} (sig : Signal) (alive : Target → Bool)
    (call : Target → CallRes α) (sender : Target) :
    (∀ (pre post : List Target) (bad : Target) (e : α),
        sig.liveReceivers alive (_make_id sender) = pre ++ bad :: post →
        (∀ r ∈ pre, ∀ e', call r ≠ CallRes.err e') →
        call bad = CallRes.err e →
        sig.send alive call sender = Except.error e
        ∧ sig.sendInvoked alive call sender = pre ++ [bad])
    ∧ ((∀ r ∈ sig.liveReceivers alive (_make_id sender), ∀ e, call r ≠ CallRes.err e) →
        sig.send alive call sender
          = Except.ok ((sig.liveReceivers alive (_make_id sender)).map
              (fun r => (r, (call r).val)))) := by
  constructor
  · intro pre post bad e hlive hpre hbad
    have hne : sig.receivers ≠ [] := by
      intro h0
      rw [liveReceivers_def, h0] at hlive
      exact (List.cons_ne_nil bad post) (List.append_eq_nil.1 hlive.symm).2
    rw [send_eq_loop sig alive call sender hne, sendInvoked_eq_loop sig alive call sender hne,
      hlive, sendLoop_err call pre post bad e hpre hbad]
    exact ⟨rfl, rfl⟩
  · intro hok
    rcases hr : sig.receivers with _ | ⟨e0, rest0⟩
    · rw [liveReceivers_def, hr]
      unfold Signal.send
      rw [hr]
      rfl
    · have hne : sig.receivers ≠ [] := by rw [hr]; exact List.cons_ne_nil e0 rest0
      rw [send_eq_loop sig alive call sender hne, sendLoop_all_ok call _ hok]

/-- Witness for C2: three strong receivers; the second raises `7`, so
`send` propagates `7` and only the first two receivers are invoked. -/
theorem send_fail_fast_witness :
    (Signal.mk [((UidPart.fromId (Ident.single 2), Ident.single 0), Handle.strong (Target.plain 1)),
                ((UidPart.fromId (Ident.single 3), Ident.single 0), Handle.strong (Target.plain 2)),
                ((UidPart.fromId (Ident.single 4), Ident.single 0), Handle.strong (Target.plain 3))] []).send
        (fun _ => false)
        (fun t => if t = Target.plain 2 then CallRes.err 7 else CallRes.ok 0) Target.none
      = Except.error 7
    ∧ (Signal.mk [((UidPart.fromId (Ident.single 2), Ident.single 0), Handle.strong (Target.plain 1)),
                  ((UidPart.fromId (Ident.single 3), Ident.single 0), Handle.strong (Target.plain 2)),
                  ((UidPart.fromId (Ident.single 4), Ident.single 0), Handle.strong (Target.plain 3))] []).sendInvoked
        (fun _ => false)
        (fun t => if t = Target.plain 2 then CallRes.err 7 else CallRes.ok 0) Target.none
      = [Target.plain 1] ++ [Target.plain 2] :=
  (send_fail_fast _ (fun _ => false)
      (fun t => if t = Target.plain 2 then CallRes.err 7 else CallRes.ok 0) Target.none).1
    [Target.plain 1] [Target.plain 3] (Target.plain 2) 7 (by decide)
    (by
      intro r hr e' hc
      rw [List.mem_singleton] at hr
      subst hr
      simp at hc)
    (by decide)

/-- **C3** `send_robust` isolates failures: it invokes every live receiver
in dispatch order, never propagates a receiver's error (its return type is
a plain response list), and returns exactly one pair per live receiver —
the return value on normal return, the captured error object itself on a
raise (`CallRes.val`). -/
theorem send_robust_isolation {α : Type u} (sig : Signal) (alive : Target → Bool)
    (call : Target → CallRes α) (sender : Target) :
    sig.robustInvoked alive call sender = sig.liveReceivers alive (_make_id sender)
    ∧ sig.sendRobust alive call sender
        = (sig.liveReceivers alive (_make_id sender)).map (fun r => (r, (call r).val)) := by
  rcases hr : sig.receivers with _ | ⟨e0, rest0⟩
  · unfold Signal.robustInvoked Signal.sendRobust
    rw [liveReceivers_def, hr]
    exact ⟨rfl, rfl⟩
  · have hne : sig.receivers.isEmpty = false := by rw [hr]; rfl
    unfold Signal.robustInvoked Signal.sendRobust
    rw [hne]
    simp only [Bool.false_eq_true, if_false, robustLoop_spec]
    exact ⟨trivial, trivial⟩

/-- **C10** When every live receiver returns normally, `send` and
`send_robust` agree: `send` returns `Except.ok` of exactly the list
`send_robust` returns; in particular, on an empty registry `send` returns
`Except.ok []` and `send_robust` returns `[]`. -/
theorem send_agrees_with_send_robust {α : Type u} (sig : Signal) (alive : Target → Bool)
    (call : Target → CallRes α) (sender : Target) :
    ((∀ r ∈ sig.liveReceivers alive (_make_id sender), ∀ e, call r ≠ CallRes.err e) →
      sig.send alive call sender = Except.ok (sig.sendRobust alive call sender))
    ∧ (∀ pa : List Nat,
        (newSignal pa).send alive call sender = Except.ok []
        ∧ (newSignal pa).sendRobust alive call sender = []) := by
  constructor
  · intro hok
    rcases hr : sig.receivers with _ | ⟨e0, rest0⟩
    · unfold Signal.send Signal.sendRobust
      rw [hr]
      rfl
    · have hne : sig.receivers ≠ [] := by rw [hr]; exact List.cons_ne_nil e0 rest0
      have hne' : sig.receivers.isEmpty = false := by rw [hr]; rfl
      rw [send_eq_loop sig alive call sender hne, sendLoop_all_ok call _ hok]
      unfold Signal.sendRobust
      rw [hne']
      simp only [Bool.false_eq_true, if_false, robustLoop_spec]
  · intro pa
    exact ⟨rfl, rfl⟩

/-- Witness for C10: two strong receivers that both return normally; `send`
returns `Except.ok` of the `send_robust` list. -/
theorem send_agrees_with_send_robust_witness :
    (Signal.mk [((UidPart.fromId (Ident.single 2), Ident.single 0), Handle.strong (Target.plain 1)),
                ((UidPart.fromId (Ident.single 3), Ident.single 0), Handle.strong (Target.plain 2))] []).send
        (fun _ => true) (fun t => CallRes.ok (_make_id t)) Target.none
      = Except.ok
          ((Signal.mk [((UidPart.fromId (Ident.single 2), Ident.single 0), Handle.strong (Target.plain 1)),
                       ((UidPart.fromId (Ident.single 3), Ident.single 0), Handle.strong (Target.plain 2))] []).sendRobust
            (fun _ => true) (fun t => CallRes.ok (_make_id t)) Target.none) :=
  (send_agrees_with_send_robust _ (fun _ => true) (fun t => CallRes.ok (_make_id t))
      Target.none).1
    (by
      intro r hr e hc
      simp at hc)

theorem sendLoop_invoked_singleton {α : Type u} (call : Target → CallRes α) (r : Target) :
    (sendLoop call [r]).1 = [r] := by
  rcases hc : call r with v | e <;> simp [sendLoop, hc]

theorem lookupKey_ne (r r' s : Target) (h : _make_id r ≠ _make_id r') :
    lookupKey r s Option.none ≠ lookupKey r' s Option.none := by
  simpa [lookupKey] using h

/-- **C4** Live-receiver resolution keeps exactly the matching entries: the
live-receiver list is the `filterMap` over the registry of "sender id is
the `None` sentinel or the publishing sender's id, and the handle resolves";
only live receivers can be invoked by `send`; a receiver connected with
`sender=S1` alone contributes nothing to (and is not invoked by) a
`send(S2, ...)` with a distinct sender identity; a receiver connected with
`sender=None` is invoked by `send` for any sender. -/
theorem live_receivers_sender_filtering {α : Type u} :
    (∀ (alive : Target → Bool) (sk : Ident) (recs : List Entry),
        liveReceiversList alive sk recs = recs.filterMap (liveResolve alive sk))
    ∧ (∀ (sig : Signal) (alive : Target → Bool) (call : Target → CallRes α)
        (sender r : Target),
        r ∈ sig.sendInvoked alive call sender →
        r ∈ sig.liveReceivers alive (_make_id sender))
    ∧ (∀ (alive : Target → Bool) (call : Target → CallRes α)
        (S1 S2 receiver : Target) (weak : Bool) (uid : Option Nat) (pa : List Nat),
        _make_id S1 ≠ _make_id Target.none →
        _make_id S1 ≠ _make_id S2 →
        ((newSignal pa).connect receiver S1 weak uid).sendInvoked alive call S2 = []
        ∧ ((newSignal pa).connect receiver S1 weak uid).liveReceivers alive (_make_id S2)
            = [])
    ∧ (∀ (alive : Target → Bool) (call : Target → CallRes α)
        (sender receiver : Target) (weak : Bool) (uid : Option Nat) (pa : List Nat),
        alive receiver = true →
        ((newSignal pa).connect receiver Target.none weak uid).sendInvoked alive call sender
          = [receiver]) := by
  refine ⟨liveReceiversList_eq_filterMap, ?_, ?_, ?_⟩
  · intro sig alive call sender r h
    rcases hr : sig.receivers with _ | ⟨e0, rest0⟩
    · unfold Signal.sendInvoked at h
      rw [hr] at h
      simp at h
    · have hne : sig.receivers ≠ [] := by rw [hr]; exact List.cons_ne_nil e0 rest0
      rw [sendInvoked_eq_loop sig alive call sender hne] at h
      exact sendLoop_invoked_mem call _ r h
  · intro alive call S1 S2 receiver weak uid pa h1 h2
    have hrecs : ((newSignal pa).connect receiver S1 weak uid).receivers
        = [(lookupKey receiver S1 uid,
            if weak then Handle.weak receiver else Handle.strong receiver)] := by
      rw [connect_of_not_mem (newSignal pa) receiver S1 weak uid (by simp [newSignal, keysOf])]
      simp [newSignal]
    have hlive : ((newSignal pa).connect receiver S1 weak uid).liveReceivers alive
        (_make_id S2) = [] := by
      rw [liveReceivers_def, hrecs]
      cases uid <;> simp [lookupKey, liveReceiversList, h1, h2]
    refine ⟨?_, hlive⟩
    have hne : ((newSignal pa).connect receiver S1 weak uid).receivers ≠ [] := by
      rw [hrecs]
      exact List.cons_ne_nil _ _
    rw [sendInvoked_eq_loop _ alive call S2 hne, hlive]
    rfl
  · intro alive call sender receiver weak uid pa halive
    have hrecs : ((newSignal pa).connect receiver Target.none weak uid).receivers
        = [(lookupKey receiver Target.none uid,
            if weak then Handle.weak receiver else Handle.strong receiver)] := by
      rw [connect_of_not_mem (newSignal pa) receiver Target.none weak uid
        (by simp [newSignal, keysOf])]
      simp [newSignal]
    have hlive : ((newSignal pa).connect receiver Target.none weak uid).liveReceivers alive
        (_make_id sender) = [receiver] := by
      rw [liveReceivers_def, hrecs]
      cases uid <;> cases weak <;> simp [lookupKey, liveReceiversList, halive]
    have hne : ((newSignal pa).connect receiver Target.none weak uid).receivers ≠ [] := by
      rw [hrecs]
      exact List.cons_ne_nil _ _
    rw [sendInvoked_eq_loop _ alive call sender hne, hlive,
      sendLoop_invoked_singleton call receiver]

/-- Witness for C4: a receiver subscribed to sender `plain 9` is not
invoked when `plain 8` publishes; a receiver subscribed with `sender=None`
is invoked when `plain 8` publishes; invoked receivers are live. -/
theorem live_receivers_sender_filtering_witness :
    (((newSignal []).connect (Target.plain 1) (Target.plain 9) true Option.none).sendInvoked
        (fun _ => true) (fun _ => CallRes.ok 0) (Target.plain 8) = []
      ∧ ((newSignal []).connect (Target.plain 1) (Target.plain 9) true
          Option.none).liveReceivers (fun _ => true) (_make_id (Target.plain 8)) = [])
    ∧ ((newSignal []).connect (Target.plain 1) Target.none true Option.none).sendInvoked
        (fun _ => true) (fun _ => CallRes.ok 0) (Target.plain 8) = [Target.plain 1]
    ∧ Target.plain 1 ∈ (Signal.mk [((UidPart.custom 0, Ident.single 0),
        Handle.strong (Target.plain 1))] []).liveReceivers (fun _ => true)
        (_make_id Target.none) :=
  ⟨live_receivers_sender_filtering.2.2.1 (fun _ => true) (fun _ => CallRes.ok 0)
      (Target.plain 9) (Target.plain 8) (Target.plain 1) true Option.none []
      (by decide) (by decide),
    live_receivers_sender_filtering.2.2.2 (fun _ => true) (fun _ => CallRes.ok 0)
      (Target.plain 8) (Target.plain 1) true Option.none [] rfl,
    live_receivers_sender_filtering.2.1
      (Signal.mk [((UidPart.custom 0, Ident.single 0), Handle.strong (Target.plain 1))] [])
      (fun _ => true) (fun _ => CallRes.ok 0) Target.none (Target.plain 1) (by decide)⟩

/-- **C5** Dispatch order is subscription order: `connect` appends a fresh
key's entry at the end of the registry; the live-receiver list is a sublist
of the registry's receivers in registry order; and for three distinct
receivers connected in order (all subscribed to any sender) a `send`
returns their results exactly in subscription order. -/
theorem dispatch_follows_subscription_order {α : Type u} :
    (∀ (sig : Signal) (r s : Target) (w : Bool) (u : Option Nat),
        lookupKey r s u ∉ keysOf sig.receivers →
        (sig.connect r s w u).receivers
          = sig.receivers
            ++ [(lookupKey r s u, if w then Handle.weak r else Handle.strong r)])
    ∧ (∀ (alive : Target → Bool) (sk : Ident) (recs : List Entry),
        List.Sublist (liveReceiversList alive sk recs) (recs.map (fun e => e.2.target)))
    ∧ (∀ (call : Target → CallRes α) (alive : Target → Bool) (r1 r2 r3 S : Target)
        (v1 v2 v3 : α) (pa : List Nat),
        _make_id r2 ≠ _make_id r1 → _make_id r3 ≠ _make_id r1 → _make_id r3 ≠ _make_id r2 →
        call r1 = CallRes.ok v1 → call r2 = CallRes.ok v2 → call r3 = CallRes.ok v3 →
        ((((newSignal pa).connect r1 Target.none false Option.none).connect r2
            Target.none false Option.none).connect r3 Target.none false Option.none).send
            alive call S
          = Except.ok [(r1, v1), (r2, v2), (r3, v3)]) := by
  refine ⟨connect_of_not_mem, ?_, ?_⟩
  · intro alive sk recs
    induction recs with
    | nil => simp [liveReceiversList]
    | cons e rest ih =>
      obtain ⟨⟨u, sk'⟩, h⟩ := e
      by_cases hs : sk' = _make_id Target.none ∨ sk' = sk
      · cases h with
        | strong t =>
          simpa [liveReceiversList, hs, Handle.target] using List.Sublist.cons₂ t ih
        | weak t =>
          by_cases ha : alive t
          · simpa [liveReceiversList, hs, ha, Handle.target] using List.Sublist.cons₂ t ih
          · simpa [liveReceiversList, hs, ha, Handle.target] using List.Sublist.cons t ih
      · simpa [liveReceiversList, hs] using List.Sublist.cons _ ih
  · intro call alive r1 r2 r3 S v1 v2 v3 pa h21 h31 h32 hc1 hc2 hc3
    have e1 : ((newSignal pa).connect r1 Target.none false Option.none).receivers
        = [(lookupKey r1 Target.none Option.none, Handle.strong r1)] := by
      rw [connect_of_not_mem (newSignal pa) r1 Target.none false Option.none
        (by simp [newSignal, keysOf])]
      simp [newSignal]
    have e2 : (((newSignal pa).connect r1 Target.none false Option.none).connect r2
          Target.none false Option.none).receivers
        = [(lookupKey r1 Target.none Option.none, Handle.strong r1),
           (lookupKey r2 Target.none Option.none, Handle.strong r2)] := by
      rw [connect_of_not_mem _ r2 Target.none false Option.none
        (by rw [e1]; simpa [keysOf] using lookupKey_ne r2 r1 Target.none h21), e1]
      rfl
    have e3 : ((((newSignal pa).connect r1 Target.none false Option.none).connect r2
          Target.none false Option.none).connect r3 Target.none false Option.none).receivers
        = [(lookupKey r1 Target.none Option.none, Handle.strong r1),
           (lookupKey r2 Target.none Option.none, Handle.strong r2),
           (lookupKey r3 Target.none Option.none, Handle.strong r3)] := by
      rw [connect_of_not_mem _ r3 Target.none false Option.none ?_, e2]
      · rfl
      · rw [e2]
        simp only [keysOf, List.map_cons, List.map_nil, List.mem_cons, List.not_mem_nil,
          or_false, not_or]
        exact ⟨lookupKey_ne r3 r1 Target.none h31, lookupKey_ne r3 r2 Target.none h32⟩
    have hne : ((((newSignal pa).connect r1 Target.none false Option.none).connect r2
          Target.none false Option.none).connect r3 Target.none false
          Option.none).receivers ≠ [] := by
      rw [e3]
      exact List.cons_ne_nil _ _
    rw [send_eq_loop _ alive call S hne, liveReceivers_def, e3]
    simp [liveReceiversList, lookupKey, _make_id, sendLoop, hc1, hc2, hc3, Except.map]

/-- Witness for C5: three plain receivers connected in order 1, 2, 3 are
answered in exactly that order by `send`. -/
theorem dispatch_follows_subscription_order_witness :
    ((((newSignal []).connect (Target.plain 1) Target.none false Option.none).connect
        (Target.plain 2) Target.none false Option.none).connect (Target.plain 3)
        Target.none false Option.none).send (fun _ => true) (fun t => CallRes.ok t)
        (Target.plain 7)
      = Except.ok [(Target.plain 1, Target.plain 1), (Target.plain 2, Target.plain 2),
          (Target.plain 3, Target.plain 3)] :=
  dispatch_follows_subscription_order.2.2 (fun t => CallRes.ok t) (fun _ => true)
    (Target.plain 1) (Target.plain 2) (Target.plain 3) (Target.plain 7)
    (Target.plain 1) (Target.plain 2) (Target.plain 3) []
    (by decide) (by decide) (by decide) rfl rfl rfl

/-- **C6** `disconnect` removes the first entry (in current registry order)
whose key equals the computed `lookup_key` and nothing else; if no entry's
key matches, `disconnect` returns without error and leaves the signal
unchanged. -/
theorem disconnect_removes_first_match :
    (∀ (sig : Signal) (r s : Target) (w : Bool) (u : Option Nat),
        lookupKey r s u ∉ keysOf sig.receivers →
        sig.disconnect r s w u = sig)
    ∧ (∀ (sig : Signal) (pre post : List Entry) (h : Handle) (r s : Target) (w : Bool)
        (u : Option Nat),
        sig.receivers = pre ++ (lookupKey r s u, h) :: post →
        lookupKey r s u ∉ keysOf pre →
        (sig.disconnect r s w u).receivers = pre ++ post) := by
  constructor
  · intro sig r s w u hmem
    unfold Signal.disconnect
    rw [removeFirstKey_of_not_mem _ _ hmem]
  · intro sig pre post h r s w u hrecs hpre
    unfold Signal.disconnect
    show removeFirstKey (lookupKey r s u) sig.receivers = pre ++ post
    rw [hrecs, removeFirstKey_middle _ _ _ _ hpre]

/-- Witness for C6: disconnecting an unsubscribed receiver is a no-op, and
disconnecting the middle subscription of three removes exactly it. -/
theorem disconnect_removes_first_match_witness :
    (Signal.mk [((UidPart.custom 5, Ident.single 0), Handle.strong (Target.plain 1))] []).disconnect
        (Target.plain 9) Target.none true Option.none
      = Signal.mk [((UidPart.custom 5, Ident.single 0), Handle.strong (Target.plain 1))] []
    ∧ ((Signal.mk [((UidPart.custom 5, Ident.single 0), Handle.strong (Target.plain 1)),
          ((UidPart.fromId (Ident.single 3), Ident.single 0), Handle.strong (Target.plain 2)),
          ((UidPart.custom 6, Ident.single 0), Handle.strong (Target.plain 3))] []).disconnect
          (Target.plain 2) Target.none true Option.none).receivers
        = [((UidPart.custom 5, Ident.single 0), Handle.strong (Target.plain 1))]
          ++ [((UidPart.custom 6, Ident.single 0), Handle.strong (Target.plain 3))] :=
  ⟨disconnect_removes_first_match.1
      (Signal.mk [((UidPart.custom 5, Ident.single 0), Handle.strong (Target.plain 1))] [])
      (Target.plain 9) Target.none true Option.none (by decide),
    disconnect_removes_first_match.2
      (Signal.mk [((UidPart.custom 5, Ident.single 0), Handle.strong (Target.plain 1)),
        ((UidPart.fromId (Ident.single 3), Ident.single 0), Handle.strong (Target.plain 2)),
        ((UidPart.custom 6, Ident.single 0), Handle.strong (Target.plain 3))] [])
      [((UidPart.custom 5, Ident.single 0), Handle.strong (Target.plain 1))]
      [((UidPart.custom 6, Ident.single 0), Handle.strong (Target.plain 3))]
      (Handle.strong (Target.plain 2)) (Target.plain 2) Target.none true Option.none
      (by decide) (by decide)⟩

/-- **C7** On a registry without duplicate keys (the invariant `connect`
maintains), `_remove_receiver(h)` removes exactly the entries whose stored
handle equals `h` — all of them, even if several — and keeps every other
entry, in order. -/
theorem remove_receiver_exact (sig : Signal) (h : Handle)
    (hnd : (keysOf sig.receivers).Nodup) :
    (sig.removeReceiver h).receivers
      = sig.receivers.filter (fun e => !(e.2 = h : Bool)) := by
  unfold Signal.removeReceiver
  show (deadKeys h sig.receivers).foldl (fun recs k => removeAllKey k recs) sig.receivers
      = sig.receivers.filter (fun e => !(e.2 = h : Bool))
  rw [foldl_removeAllKey]
  apply List.filter_congr
  intro e he
  by_cases hh : e.2 = h
  · have hmem : e.1 ∈ deadKeys h sig.receivers :=
      (deadKeys_mem h sig.receivers e.1).2 ⟨e, he, rfl, hh⟩
    simp [hh, hmem]
  · have hmem : e.1 ∉ deadKeys h sig.receivers := by
      intro hk
      obtain ⟨e', he', h1, h2⟩ := (deadKeys_mem h sig.receivers e.1).1 hk
      have : e' = e := List.inj_on_of_nodup_map hnd he' he h1
      exact hh (this ▸ h2)
    simp [hh, hmem]

/-- Witness for C7: two entries (with distinct keys) hold the same dead
weak handle and one entry holds another receiver; reaping removes exactly
the two dead entries and keeps the third. -/
theorem remove_receiver_exact_witness :
    ((Signal.mk [((UidPart.custom 0, Ident.single 0), Handle.weak (Target.plain 5)),
        ((UidPart.custom 1, Ident.single 0), Handle.weak (Target.plain 5)),
        ((UidPart.custom 2, Ident.single 0), Handle.strong (Target.plain 6))] []).removeReceiver
        (Handle.weak (Target.plain 5))).receivers
      = [((UidPart.custom 2, Ident.single 0), Handle.strong (Target.plain 6))] := by
  rw [remove_receiver_exact
    (Signal.mk [((UidPart.custom 0, Ident.single 0), Handle.weak (Target.plain 5)),
      ((UidPart.custom 1, Ident.single 0), Handle.weak (Target.plain 5)),
      ((UidPart.custom 2, Ident.single 0), Handle.strong (Target.plain 6))] [])
    (Handle.weak (Target.plain 5)) (by decide)]
  rfl

/-- **C8** Bound-method receiver identity: `_make_id` of a bound-method
object depends only on the bound instance's id and the underlying
function's id — the ephemeral bound-method object's own id is irrelevant —
so the same instance/method pair yields an equal identity on every access,
while the same method on two distinct instances yields distinct
identities; consequently reconnecting the same instance/method pair through
a fresh bound-method object is deduplicated by `connect`. -/
theorem bound_method_identity :
    (∀ s f o o', _make_id (Target.method s f o) = _make_id (Target.method s f o'))
    ∧ (∀ s s' f o o', s ≠ s' →
        _make_id (Target.method s f o) ≠ _make_id (Target.method s' f o'))
    ∧ (∀ (pa : List Nat) (s f o1 o2 : Nat) (sender : Target) (w1 w2 : Bool),
        ((newSignal pa).connect (Target.method s f o1) sender w1 Option.none).connect
            (Target.method s f o2) sender w2 Option.none
          = (newSignal pa).connect (Target.method s f o1) sender w1 Option.none) := by
  refine ⟨fun s f o o' => rfl, ?_, ?_⟩
  · intro s s' f o o' hss hc
    rw [_make_id, _make_id] at hc
    exact hss (Ident.pair.injEq _ _ _ _ ▸ hc).1
  · intro pa s f o1 o2 sender w1 w2
    apply connect_of_mem
    rw [connect_of_not_mem (newSignal pa) (Target.method s f o1) sender w1 Option.none
      (by simp [newSignal, keysOf])]
    simp [newSignal, keysOf, lookupKey, _make_id]

/-- Witness for C8: instances with ids 1 and 2 sharing the function with id
9 give distinct identities, and reconnecting instance 1's method through a
fresh bound-method object (object id 12 instead of 11) is dropped. -/
theorem bound_method_identity_witness :
    _make_id (Target.method 1 9 11) ≠ _make_id (Target.method 2 9 12)
    ∧ ((newSignal []).connect (Target.method 1 9 11) Target.none true Option.none).connect
          (Target.method 1 9 12) Target.none true Option.none
        = (newSignal []).connect (Target.method 1 9 11) Target.none true Option.none :=
  ⟨bound_method_identity.2.1 1 2 9 11 12 (by decide),
    bound_method_identity.2.2 [] 1 9 11 12 Target.none true true⟩

/-- Whether an event is a receiver invocation. -/
def LockEvent.isInvoke : LockEvent → Bool
  | LockEvent.invoke _ => true
  | _ => false

instance (tr : List LockEvent) (i : Nat) : Decidable (heldAt tr i) := by
  unfold heldAt
  infer_instance

instance (tr : List LockEvent) : Decidable (guardedTrace tr) := by
  unfold guardedTrace
  infer_instance

theorem mem_sendTrace {α : Type u} (sig : Signal) (alive : Target → Bool)
    (call : Target → CallRes α) (sender : Target) (e : LockEvent)
    (h : e ∈ sendTrace sig alive call sender) :
    e = LockEvent.registryRead ∨ ∃ t, e = LockEvent.invoke t := by
  unfold sendTrace at h
  rcases List.mem_cons.1 h with hc | h2
  · exact Or.inl hc
  · split at h2
    · exact absurd h2 (List.not_mem_nil e)
    · rcases List.mem_cons.1 h2 with hc | h3
      · exact Or.inl hc
      · rcases List.mem_map.1 h3 with ⟨t, _, ht⟩
        exact Or.inr ⟨t, ht.symm⟩

theorem mem_sendRobustTrace {α : Type u} (sig : Signal) (alive : Target → Bool)
    (call : Target → CallRes α) (sender : Target) (e : LockEvent)
    (h : e ∈ sendRobustTrace sig alive call sender) :
    e = LockEvent.registryRead ∨ ∃ t, e = LockEvent.invoke t := by
  unfold sendRobustTrace at h
  rcases List.mem_cons.1 h with hc | h2
  · exact Or.inl hc
  · split at h2
    · exact absurd h2 (List.not_mem_nil e)
    · rcases List.mem_cons.1 h2 with hc | h3
      · exact Or.inl hc
      · rcases List.mem_map.1 h3 with ⟨t, _, ht⟩
        exact Or.inr ⟨t, ht.symm⟩

theorem not_held_of_no_acquire (tr : List LockEvent) (h : LockEvent.acquire ∉ tr)
    (i : Nat) : ¬ heldAt tr i := by
  unfold heldAt
  have h0 : (tr.take i).count LockEvent.acquire = 0 :=
    List.count_eq_zero.2 (fun hc => h ((List.take_sublist i tr).subset hc))
  simp [h0]

/-- **C9, counterexample** The claim "the snapshot of the receivers registry
that `send`/`send_robust` iterate is read while holding the guard" is false
on the code: `send`, `send_robust` and `_live_receivers` never touch
`self.lock`, so on a one-receiver signal the very first registry read of
`send` happens with the guard not held. -/
theorem dispatch_snapshot_read_unlocked :
    ¬ (∀ (sig : Signal) (alive : Target → Bool) (call : Target → CallRes Nat)
        (sender : Target),
        (guardedTrace (sendTrace sig alive call sender)
          ∧ ∀ i : Fin (sendTrace sig alive call sender).length,
              ((sendTrace sig alive call sender).get i).isInvoke = true →
              ¬ heldAt (sendTrace sig alive call sender) i.val)
        ∧ (guardedTrace (sendRobustTrace sig alive call sender)
          ∧ ∀ i : Fin (sendRobustTrace sig alive call sender).length,
              ((sendRobustTrace sig alive call sender).get i).isInvoke = true →
              ¬ heldAt (sendRobustTrace sig alive call sender) i.val)) :=
  fun h =>
    absurd
      (h (Signal.mk [((UidPart.custom 0, Ident.single 0), Handle.strong (Target.plain 1))] [])
        (fun _ => true) (fun _ => CallRes.ok 0) Target.none)
      (by decide)

/-- **C9, amended** The dispatch path acquires no lock at all: the traces of
`send` and `send_robust` contain no `acquire` or `release` event, the guard
is (therefore, vacuously) never held at any point of dispatch — in
particular it is not held when a receiver is invoked — while every registry
access of the mutating operations `connect`, `disconnect` and
`_remove_receiver` does happen between `acquire` and `release`. -/
theorem dispatch_lock_discipline {α : Type u} (sig : Signal) (alive : Target → Bool)
    (call : Target → CallRes α) (sender r s : Target) (u : Option Nat) (h : Handle) :
    LockEvent.acquire ∉ sendTrace sig alive call sender
    ∧ LockEvent.release ∉ sendTrace sig alive call sender
    ∧ LockEvent.acquire ∉ sendRobustTrace sig alive call sender
    ∧ LockEvent.release ∉ sendRobustTrace sig alive call sender
    ∧ (∀ i : Nat, ¬ heldAt (sendTrace sig alive call sender) i)
    ∧ (∀ i : Nat, ¬ heldAt (sendRobustTrace sig alive call sender) i)
    ∧ guardedTrace (connectTrace sig r s u)
    ∧ guardedTrace (disconnectTrace sig r s u)
    ∧ guardedTrace (removeReceiverTrace sig h) := by
  have hsa : LockEvent.acquire ∉ sendTrace sig alive call sender := by
    intro hmem
    rcases mem_sendTrace sig alive call sender _ hmem with hc | ⟨t, hc⟩ <;>
      exact LockEvent.noConfusion hc
  have hra : LockEvent.acquire ∉ sendRobustTrace sig alive call sender := by
    intro hmem
    rcases mem_sendRobustTrace sig alive call sender _ hmem with hc | ⟨t, hc⟩ <;>
      exact LockEvent.noConfusion hc
  refine ⟨hsa, ?_, hra, ?_, not_held_of_no_acquire _ hsa, not_held_of_no_acquire _ hra,
    ?_, ?_, ?_⟩
  · intro hmem
    rcases mem_sendTrace sig alive call sender _ hmem with hc | ⟨t, hc⟩ <;>
      exact LockEvent.noConfusion hc
  · intro hmem
    rcases mem_sendRobustTrace sig alive call sender _ hmem with hc | ⟨t, hc⟩ <;>
      exact LockEvent.noConfusion hc
  · unfold connectTrace
    split
    · decide
    · decide
  · unfold disconnectTrace
    split
    · decide
    · decide
  · unfold removeReceiverTrace
    split
    · decide
    · decide

/-- Witness for C9 (amended): on a concrete one-receiver signal, the `send`
trace never holds the guard, and a concrete `connect` performs its registry
accesses under the guard. -/
theorem dispatch_lock_discipline_witness :
    (¬ heldAt (sendTrace
        (Signal.mk [((UidPart.custom 0, Ident.single 0), Handle.strong (Target.plain 1))] [])
        (fun _ => true) (fun _ => CallRes.ok 0) Target.none) 0)
    ∧ guardedTrace (connectTrace
        (Signal.mk [((UidPart.custom 0, Ident.single 0), Handle.strong (Target.plain 1))] [])
        (Target.plain 2) Target.none Option.none) :=
  ⟨(dispatch_lock_discipline
      (Signal.mk [((UidPart.custom 0, Ident.single 0), Handle.strong (Target.plain 1))] [])
      (fun _ => true) (fun _ => CallRes.ok 0) Target.none (Target.plain 2) Target.none
      Option.none (Handle.strong (Target.plain 1))).2.2.2.2.1 0,
    (dispatch_lock_discipline
      (Signal.mk [((UidPart.custom 0, Ident.single 0), Handle.strong (Target.plain 1))] [])
      (fun _ => true) (fun _ => CallRes.ok 0) Target.none (Target.plain 2) Target.none
      Option.none (Handle.strong (Target.plain 1))).2.2.2.2.2.2.1⟩
